import Mathlib

/-!
Shallow embedding of the application-lifecycle engine of the psychology
job portal (src/app.py): the document store, the apply / upload / assess /
cleanup / clear route handlers, and theorems checking the specified
properties against them.

Modelling conventions:
* Mongo documents are Lean structures; a field that can be absent from a
  document is an `Option` (absent = `none`).
* Object ids are `Nat`; timestamps are `Nat` measured in hours, so the
  48-hour upload deadline is `now + 48`.
* `find_one` is `List.find?`, `update_one` rewrites the first matching
  document (`updateFirst`), `count_documents` is `filter` then `length`,
  `delete_many` is `filter`, matching the store collaborator contract.
* Route handlers take the session data (the `current_user` fields) and the
  request data as arguments and return the new store paired with a result
  describing the flash/redirect outcome.  Template rendering, file saving
  and mail sending are collaborator side effects with no bearing on the
  store and are not part of the state.
-/

namespace Portal

/-- A document of the `users` collection (the fields the lifecycle routes
read; presentation-only fields are omitted). -/
structure User where
  id : Nat
  role : String
  email : String
  deriving DecidableEq, Repr

/-- A document of the `jobs` collection (the fields the lifecycle routes
read or write). -/
structure Job where
  id : Nat
  vacancies : Int
  status : String
  deriving DecidableEq, Repr

/-- A document of the `applications` collection.  `student_id` is `none`
for documents inserted without that field, as `apply` inserts them. -/
structure Application where
  id : Nat
  job_id : Nat
  user_id : Nat
  student_id : Option String
  status : String
  applied_at : Nat
  resume_deadline : Nat
  resume_uploaded_at : Option Nat
  resume_filename : Option String
  photo_filename : Option String
  teacher_feedback : Option String
  updated_at : Option Nat
  deriving DecidableEq, Repr

/-- The document store. -/
structure Store where
  users : List User
  jobs : List Job
  applications : List Application
  deriving DecidableEq, Repr

/-- Model of `update_one`: rewrite the first document matching the filter. -/
def updateFirst (p : α → Bool) (f : α → α) : List α → List α
  | [] => []
  | x :: xs => if p x then f x :: xs else x :: updateFirst p f xs

/-- Python `str.strip()`: drop leading and trailing whitespace. -/
def stripStr (s : String) : String :=
  String.mk (((s.data.dropWhile Char.isWhitespace).reverse.dropWhile
    Char.isWhitespace).reverse)

/-- Python `str.lower()` on the ASCII filenames handled here. -/
def lowerStr (s : String) : String :=
  String.mk (s.data.map Char.toLower)

/-- A file input of the request: `none` when the form field is absent,
otherwise the client-supplied filename.  The check mirrors
`not f or not f.filename.strip()` in the handlers. -/
def filePresent : Option String → Bool
  | none => false
  | some n => !(stripStr n == "")

/-- Extension of a filename, dot included, following `os.path.splitext`:
the extension starts at the last dot, provided a character other than a
dot occurs somewhere before that dot. -/
def splitext_ext (name : String) : String :=
  let rev := name.data.reverse
  let afterDot := rev.takeWhile (fun c => !(c == '.'))
  if afterDot.length == rev.length then ""
  else if (rev.drop (afterDot.length + 1)).all (fun c => c == '.') then ""
  else String.mk ('.' :: afterDot.reverse)

/-- Model of `werkzeug.utils.secure_filename` (external library
collaborator): a sanitizer keeping ASCII alphanumerics, dots, dashes and
underscores.  The theorems below depend only on the sanitized name being
stored, never on its exact text. -/
def secure_filename (name : String) : String :=
  String.mk (name.data.filter fun c => c.isAlphanum || c == '.' || c == '-' || c == '_')

/-- Update of a successful `upload` / `resume_reupload` (its `$set`): stored
filenames, upload time, status `submitted`, teacher feedback cleared. -/
def submitSet (rf pf : String) (now : Nat) (a : Application) : Application :=
  { a with resume_filename := some rf, photo_filename := some pf,
           resume_uploaded_at := some now, status := "submitted",
           teacher_feedback := some "" }

/-- Update of a successful `upload_resume` (its `$set`): status `submitted`, upload
time and filenames, but no change to the teacher feedback. -/
def uploadResumeSet (rf pf : String) (now : Nat) (a : Application) : Application :=
  { a with status := "submitted", resume_uploaded_at := some now,
           resume_filename := some rf, photo_filename := some pf }

/-- Update performed by `assess_students`: status and teacher feedback. -/
def assessSet (new_status feedback : String) (a : Application) : Application :=
  { a with status := new_status, teacher_feedback := some feedback }

/-- Update performed by `update_application_status`: status, teacher feedback and
update time. -/
def updateStatusSet (status feedback : String) (now : Nat) (a : Application) : Application :=
  { a with status := status, teacher_feedback := some feedback,
           updated_at := some now }

/-- Update performed by the deadline sweep: status `rejected_auto`. -/
def rejectAutoSet (a : Application) : Application :=
  { a with status := "rejected_auto" }


/-- Statuses that count as an active application. -/
def activeStatuses : List String := ["pending_resume", "submitted", "approved"]

/-- The filter used both for the duplicate-application pre-check of
`apply` and for counting a student's active applications. -/
def is_active_for (uid : Nat) (a : Application) : Bool :=
  a.user_id == uid && activeStatuses.contains a.status

inductive ApplyResult
  | notStudent | alreadyActive | jobUnavailable | noVacancies | success
  deriving DecidableEq, Repr

/-- POST `/apply/<job_id>` (src/app.py, `apply`): duplicate-application
pre-check, open-job lookup, capacity check against the recorded vacancy
count, document insert, then a guarded (`vacancies > 0`) decrement. -/
def apply (role : String) (uid : Nat) (job_id : Nat) (now : Nat) (newId : Nat)
    (s : Store) : Store × ApplyResult :=
  if !(role == "student") then (s, .notStudent)
  else match s.applications.find? (is_active_for uid) with
    | some _ => (s, .alreadyActive)
    | none =>
      match s.jobs.find? (fun j => j.id == job_id && j.status == "open") with
      | none => (s, .jobUnavailable)
      | some job =>
        let applications_count :=
          (s.applications.filter
            (fun a => a.job_id == job_id && activeStatuses.contains a.status)).length
        if job.vacancies ≤ (applications_count : Int) then (s, .noVacancies)
        else
          let newApp : Application :=
            { id := newId, job_id := job_id, user_id := uid, student_id := none,
              status := "pending_resume", applied_at := now,
              resume_deadline := now + 48, resume_uploaded_at := none,
              resume_filename := none, photo_filename := none,
              teacher_feedback := none, updated_at := none }
          ({ s with
              applications := s.applications ++ [newApp],
              jobs := updateFirst (fun j => j.id == job_id && decide (0 < j.vacancies))
                        (fun j => { j with vacancies := j.vacancies - 1 }) s.jobs },
            .success)

inductive UploadResult
  | unauthorized | cannotModify | missingFiles | badResumeType | badPhotoType | success
  deriving DecidableEq, Repr

/-- POST `/upload/<app_id>` (src/app.py, `upload`): ownership and status
checks, file presence and extension validation, then one `$set` that also
clears the teacher feedback. -/
def upload (uid : Nat) (student_id : String) (app_id : Nat)
    (resume photo : Option String) (now : Nat) (s : Store) : Store × UploadResult :=
  match s.applications.find? (fun a => a.id == app_id) with
  | none => (s, .unauthorized)
  | some app_doc =>
    if !(app_doc.user_id == uid) then (s, .unauthorized)
    else if !(app_doc.status == "pending_resume" || app_doc.status == "corrections_needed") then
      (s, .cannotModify)
    else if !(filePresent resume && filePresent photo) then (s, .missingFiles)
    else
      let resume_ext := lowerStr (splitext_ext (resume.getD ""))
      let photo_ext := lowerStr (splitext_ext (photo.getD ""))
      if !([".pdf", ".doc", ".docx"].contains resume_ext) then (s, .badResumeType)
      else if !([".jpg", ".jpeg", ".png"].contains photo_ext) then (s, .badPhotoType)
      else
        let basename := student_id ++ "_" ++ toString app_id
        let resume_filename := secure_filename (basename ++ resume_ext)
        let photo_filename := secure_filename (basename ++ "_photo" ++ photo_ext)
        let apps := updateFirst (fun a => a.id == app_id)
          (submitSet resume_filename photo_filename now) s.applications
        ({ s with applications := apps }, .success)

inductive UploadResumeResult
  | missingFiles | noMatchingApplication | cannotModify | success
  deriving DecidableEq, Repr

/-- POST `/upload_resume/<job_id>` (src/app.py, `upload_resume`): looks the
application up by the `student_id` field together with the job id, performs
no extension validation, and its `$set` does not touch `teacher_feedback`. -/
def upload_resume (student_id : String) (job_id : Nat)
    (resume photo : Option String) (now : Nat) (s : Store) : Store × UploadResumeResult :=
  if !(filePresent resume && filePresent photo) then (s, .missingFiles)
  else match s.applications.find?
      (fun a => a.student_id == some student_id && a.job_id == job_id) with
  | none => (s, .noMatchingApplication)
  | some application =>
    if !(application.status == "pending_resume" || application.status == "corrections_needed") then
      (s, .cannotModify)
    else
      let filename_resume := secure_filename (resume.getD "")
      let filename_photo := secure_filename (photo.getD "")
      let apps := updateFirst (fun a => a.id == application.id)
        (uploadResumeSet filename_resume filename_photo now) s.applications
      ({ s with applications := apps }, .success)

inductive ReuploadResult
  | unauthorized | notCorrections | missingFiles | success
  deriving DecidableEq, Repr

/-- POST `/resume/reupload/<app_id>` followed by `handle_resume_submission`
(src/app.py): allowed only in the literal status `corrections_needed`; on
success sets status `submitted` and clears the teacher feedback. -/
def resume_reupload (uid : Nat) (student_id : String) (app_id : Nat)
    (resume photo : Option String) (now : Nat) (s : Store) : Store × ReuploadResult :=
  match s.applications.find? (fun a => a.id == app_id) with
  | none => (s, .unauthorized)
  | some app_doc =>
    if !(app_doc.user_id == uid) then (s, .unauthorized)
    else if !(app_doc.status == "corrections_needed") then (s, .notCorrections)
    else if !(filePresent resume && filePresent photo) then (s, .missingFiles)
    else
      let base := student_id ++ "_" ++ toString app_doc.id
      let resume_filename := secure_filename (base ++ lowerStr (splitext_ext (resume.getD "")))
      let photo_filename :=
        secure_filename (base ++ "_photo" ++ lowerStr (splitext_ext (photo.getD "")))
      let apps := updateFirst (fun a => a.id == app_doc.id)
        (submitSet resume_filename photo_filename now) s.applications
      ({ s with applications := apps }, .success)

inductive AssessResult
  | notTeacher | invalidData | updated
  deriving DecidableEq, Repr

/-- POST `/teacher/assess` (src/app.py, `assess_students`): guarded by
`teacher_required`; accepts only the literal decisions `approved`,
`rejected` and `needs_corrections`, and performs no check on the current
status of the targeted application. -/
def assess_students (role : String) (app_id : Option Nat)
    (new_status feedback : String) (s : Store) : Store × AssessResult :=
  if !(role == "teacher") then (s, .notTeacher)
  else match app_id with
    | none => (s, .invalidData)
    | some aid =>
      if new_status == "approved" || new_status == "rejected"
          || new_status == "needs_corrections" then
        let apps := updateFirst (fun a => a.id == aid)
          (assessSet new_status (stripStr feedback)) s.applications
        ({ s with applications := apps }, .updated)
      else (s, .invalidData)

inductive UpdateStatusResult
  | notLoggedIn | invalidStatus | appNotFound | lookupFailed | updated
  deriving DecidableEq, Repr

/-- POST `/teacher/update_application/<application_id>` (src/app.py,
`update_application_status`): guarded only by `login_required` — the
caller's role is available in the session but never checked.  The student
and job lookups happen before the update; a missing one raises and aborts
the request with no state change. -/
def update_application_status (loggedIn : Bool) (role : String)
    (application_id : Nat) (status feedback : String) (now : Nat)
    (s : Store) : Store × UpdateStatusResult :=
  if !loggedIn then (s, .notLoggedIn)
  else if !(status == "approved" || status == "rejected" || status == "needs_corrections") then
    (s, .invalidStatus)
  else match s.applications.find? (fun a => a.id == application_id) with
    | none => (s, .appNotFound)
    | some application =>
      match s.users.find? (fun u => u.id == application.user_id),
            s.jobs.find? (fun j => j.id == application.job_id) with
      | some _, some _ =>
        let apps := updateFirst (fun a => a.id == application_id)
          (updateStatusSet status (stripStr feedback) now) s.applications
        ({ s with applications := apps }, .updated)
      | _, _ => (s, .lookupFailed)

/-- The sweep's match filter: no `resume_filename` field and an expired
deadline (`cleanup_deadlines` in src/app.py). -/
def cleanupPred (now : Nat) (a : Application) : Bool :=
  a.resume_filename.isNone && decide (a.resume_deadline < now)

/-- Pointwise effect of the sweep on one document of a store whose
document ids are unique: rewritten to `rejected_auto` exactly when the
sweep filter matches it. -/
def sweepMark (now : Nat) (a : Application) : Application :=
  if cleanupPred now a then rejectAutoSet a else a

/-- The sweep's update loop: one `update_one` by id per matched document. -/
def sweepApps (expired apps : List Application) : List Application :=
  expired.foldl
    (fun apps doc => updateFirst (fun a => a.id == doc.id) rejectAutoSet apps)
    apps

/-- The scheduled sweep `cleanup_deadlines` (src/app.py): for every
document matching the filter, `update_one` on its id sets the status to
`rejected_auto`. -/
def cleanup_deadlines (now : Nat) (s : Store) : Store :=
  let expired := s.applications.filter (cleanupPred now)
  { s with applications := sweepApps expired s.applications }

inductive ClearResult
  | notTeacher | noneSelected | cleared (count : Nat)
  deriving DecidableEq, Repr

/-- Add one occurrence of `job_id` to the per-job tally (a Python dict,
iterated in insertion order). -/
def bumpTally (t : List (Nat × Nat)) (job_id : Nat) : List (Nat × Nat) :=
  match t with
  | [] => [(job_id, 1)]
  | (k, c) :: rest =>
    if k == job_id then (k, c + 1) :: rest else (k, c) :: bumpTally rest job_id

/-- The per-job tally of a list of applications (a Python dict built in
insertion order). -/
def tallyJobs (apps : List Application) : List (Nat × Nat) :=
  apps.foldl (fun t a => bumpTally t a.job_id) []

/-- One unguarded `$inc` of the vacancy count per tallied job id. -/
def applyTally (t : List (Nat × Nat)) (js : List Job) : List Job :=
  t.foldl
    (fun js kv => updateFirst (fun j => j.id == kv.1)
      (fun j => { j with vacancies := j.vacancies + (kv.2 : Int) }) js)
    js

/-- POST `/teacher/clear_application_bulk` (src/app.py,
`clear_application_bulk`): collect the selected applications, tally them
per job, delete them, then add each job's tally to its vacancy count. -/
def clear_application_bulk (role : String) (app_ids : List Nat)
    (s : Store) : Store × ClearResult :=
  if !(role == "teacher") then (s, .notTeacher)
  else if app_ids.isEmpty then (s, .noneSelected)
  else
    let apps_to_clear := s.applications.filter (fun a => app_ids.contains a.id)
    let job_id_to_count := tallyJobs apps_to_clear
    let remaining := s.applications.filter (fun a => !(app_ids.contains a.id))
    let jobs := applyTally job_id_to_count s.jobs
    ({ s with applications := remaining, jobs := jobs }, .cleared apps_to_clear.length)

/-- One request against the lifecycle engine, carrying its session and
form data. -/
inductive Op where
  | opApply (role : String) (uid : Nat) (job_id : Nat) (now : Nat) (newId : Nat)
  | opUpload (uid : Nat) (student_id : String) (app_id : Nat)
      (resume photo : Option String) (now : Nat)
  | opUploadResume (student_id : String) (job_id : Nat)
      (resume photo : Option String) (now : Nat)
  | opReupload (uid : Nat) (student_id : String) (app_id : Nat)
      (resume photo : Option String) (now : Nat)
  | opAssess (role : String) (app_id : Option Nat) (new_status feedback : String)
  | opCleanup (now : Nat)
  | opClear (role : String) (app_ids : List Nat)
  deriving Repr

/-- Effect of one request on the store. -/
def step (s : Store) : Op → Store
  | .opApply role uid job_id now newId => (apply role uid job_id now newId s).1
  | .opUpload uid sid app_id r p now => (upload uid sid app_id r p now s).1
  | .opUploadResume sid job_id r p now => (upload_resume sid job_id r p now s).1
  | .opReupload uid sid app_id r p now => (resume_reupload uid sid app_id r p now s).1
  | .opAssess role app_id ns fb => (assess_students role app_id ns fb s).1
  | .opCleanup now => cleanup_deadlines now s
  | .opClear role app_ids => (clear_application_bulk role app_ids s).1

/-- Effect of a sequence of non-concurrent requests. -/
def execTrace (s : Store) (ops : List Op) : Store :=
  ops.foldl step s

/-- Number of applications of student `uid` whose status is one of
`pending_resume`, `submitted`, `approved`. -/
def active_application_count (uid : Nat) (s : Store) : Nat :=
  (s.applications.filter (is_active_for uid)).length

/-- A request is a disciplined assessment when any `opAssess` targets an
application whose current status is `submitted`, as the state-machine
table of the specification prescribes; every other request is
unconstrained. -/
def assessOk (s : Store) : Op → Bool
  | .opAssess _ app_id _ _ =>
    match app_id with
    | none => true
    | some aid =>
      match s.applications.find? (fun a => a.id == aid) with
      | none => true
      | some a => a.status == "submitted"
  | _ => true

/-- A trace in which every assessment is disciplined, each one checked
against the store state at which it executes. -/
def goodTrace : Store → List Op → Bool
  | _, [] => true
  | s, op :: ops => assessOk s op && goodTrace (step s op) ops

/-- Value of a key in the per-job tally (0 when the key is absent). -/
def lookupTally (t : List (Nat × Nat)) (k : Nat) : Nat :=
  match t with
  | [] => 0
  | (j, c) :: rest => if j == k then c else lookupTally rest k

/-- Invariant of the applications collection carried along traces that
start with no applications: every document was inserted by `apply` (so it
has no `student_id` field), no document carries the status string
`corrections_needed` (the write paths only ever produce
`needs_corrections`), and every student has at most one active
application. -/
def InvApps (apps : List Application) : Prop :=
  (∀ a ∈ apps, a.student_id = none) ∧
  (∀ a ∈ apps, a.status ≠ "corrections_needed") ∧
  (∀ uid : Nat, (apps.filter (is_active_for uid)).length ≤ 1)

/-- Store-level form of `InvApps`. -/
def Inv (s : Store) : Prop := InvApps s.applications

/-- Every job document has a non-negative vacancy count. -/
def JobsNonneg (jobs : List Job) : Prop := ∀ j ∈ jobs, 0 ≤ j.vacancies


/-- A small store used to evaluate routes at concrete inputs: one student,
one open job, one already-submitted application. -/
def demoStore : Store :=
  { users := [{ id := 7, role := "student", email := "s@u.edu" }],
    jobs := [{ id := 1, vacancies := 3, status := "open" }],
    applications := [
      { id := 1, job_id := 1, user_id := 7, student_id := none,
        status := "submitted", applied_at := 0, resume_deadline := 48,
        resume_uploaded_at := some 10, resume_filename := some "S1_1.pdf",
        photo_filename := some "S1_1_photo.jpg", teacher_feedback := none,
        updated_at := none }] }

/-- A store with one rejected application that never received a résumé and
whose upload deadline has passed. -/
def expiredRejectedStore : Store :=
  { users := [], jobs := [],
    applications := [
      { id := 2, job_id := 1, user_id := 7, student_id := none,
        status := "rejected", applied_at := 0, resume_deadline := 48,
        resume_uploaded_at := none, resume_filename := none,
        photo_filename := none, teacher_feedback := some "no", updated_at := none }] }

/-- An application that carries a `student_id` field, is in status
`corrections_needed` and still stores teacher feedback. -/
def legacyApp : Application :=
  { id := 3, job_id := 1, user_id := 7, student_id := some "S1",
    status := "corrections_needed", applied_at := 0, resume_deadline := 48,
    resume_uploaded_at := none, resume_filename := none,
    photo_filename := none, teacher_feedback := some "fix the margins",
    updated_at := none }

/-- A store holding `legacyApp`. -/
def legacyFeedbackStore : Store :=
  { users := [{ id := 7, role := "student", email := "s@u.edu" }],
    jobs := [{ id := 1, vacancies := 3, status := "open" }],
    applications := [legacyApp] }

/-- A store with two open jobs and no applications yet. -/
def twoJobsStore : Store :=
  { users := [{ id := 7, role := "student", email := "s@u.edu" }],
    jobs := [{ id := 1, vacancies := 1, status := "open" },
             { id := 2, vacancies := 1, status := "open" }],
    applications := [] }

/-- A store whose only job has no vacancies left. -/
def fullJobStore : Store :=
  { users := [{ id := 7, role := "student", email := "s@u.edu" }],
    jobs := [{ id := 1, vacancies := 0, status := "open" }],
    applications := [] }

/-- A store with two applications of the same job, ready to be cleared. -/
def clearDemoStore : Store :=
  { users := [],
    jobs := [{ id := 1, vacancies := 0, status := "open" }],
    applications := [
      { id := 11, job_id := 1, user_id := 7, student_id := none,
        status := "submitted", applied_at := 0, resume_deadline := 48,
        resume_uploaded_at := some 1, resume_filename := some "a.pdf",
        photo_filename := some "a.jpg", teacher_feedback := none,
        updated_at := none },
      { id := 12, job_id := 1, user_id := 8, student_id := none,
        status := "rejected", applied_at := 0, resume_deadline := 48,
        resume_uploaded_at := none, resume_filename := none,
        photo_filename := none, teacher_feedback := none,
        updated_at := none }] }

/-- A trace on `twoJobsStore` in which the teacher assesses a rejected
(hence inactive) application as approved after the student has already
opened a second application. -/
def doubleActiveTrace : List Op :=
  [ .opApply "student" 7 1 0 101,
    .opAssess "teacher" (some 101) "rejected" "",
    .opApply "student" 7 2 1 102,
    .opAssess "teacher" (some 101) "approved" "" ]

/-- A disciplined trace on `twoJobsStore`: apply, upload, then assess the
submitted application. -/
def goodDemoTrace : List Op :=
  [ .opApply "student" 7 1 0 101,
    .opUpload 7 "S1" 101 (some "cv.pdf") (some "me.jpg") 3,
    .opAssess "teacher" (some 101) "approved" "" ]

/-- A trace exercising the two vacancy-changing operations. -/
def vacDemoTrace : List Op :=
  [ .opApply "student" 7 1 0 101,
    .opClear "teacher" [101] ]

/-! ### Generic facts about `update_one` on a list collection -/

theorem updateFirst_of_find?_none {α} {p : α → Bool} {f : α → α} {l : List α}
    (h : l.find? p = none) : updateFirst p f l = l := by
  induction l with
  | nil => rfl
  | cons x xs ih =>
    by_cases hp : p x = true
    · rw [List.find?_cons_of_pos _ hp] at h
      exact absurd h (by simp)
    · rw [List.find?_cons_of_neg _ (by simp [hp])] at h
      simp only [updateFirst, if_neg hp, ih h]

theorem mem_updateFirst {α} {p : α → Bool} {f : α → α} {l : List α} {x : α}
    (hx : x ∈ updateFirst p f l) : x ∈ l ∨ ∃ y, y ∈ l ∧ p y = true ∧ x = f y := by
  induction l with
  | nil => simp [updateFirst] at hx
  | cons y ys ih =>
    by_cases hp : p y = true
    · rw [updateFirst, if_pos hp] at hx
      rcases List.mem_cons.mp hx with h1 | h2
      · exact Or.inr ⟨y, List.mem_cons_self y ys, hp, h1⟩
      · exact Or.inl (List.mem_cons_of_mem y h2)
    · rw [updateFirst, if_neg hp] at hx
      rcases List.mem_cons.mp hx with h1 | h2
      · exact Or.inl (h1 ▸ List.mem_cons_self y ys)
      · rcases ih h2 with h3 | ⟨z, hz, hpz, hxz⟩
        · exact Or.inl (List.mem_cons_of_mem y h3)
        · exact Or.inr ⟨z, List.mem_cons_of_mem y hz, hpz, hxz⟩

theorem find?_updateFirst_self {α} (p : α → Bool) (f : α → α) (l : List α)
    (hpf : ∀ x, p (f x) = p x) :
    (updateFirst p f l).find? p = (l.find? p).map f := by
  induction l with
  | nil => rfl
  | cons y ys ih =>
    by_cases hp : p y = true
    · rw [updateFirst, if_pos hp, List.find?_cons_of_pos _ (by rw [hpf]; exact hp),
        List.find?_cons_of_pos _ hp]
      rfl
    · rw [updateFirst, if_neg hp, List.find?_cons_of_neg _ (by simp [hp]),
        List.find?_cons_of_neg _ (by simp [hp]), ih]

theorem find?_updateFirst_other {α} (p q : α → Bool) (f : α → α) (l : List α)
    (hq : ∀ x, q (f x) = q x) (hpq : ∀ x, p x = true → q x = false) :
    (updateFirst p f l).find? q = l.find? q := by
  induction l with
  | nil => rfl
  | cons y ys ih =>
    by_cases hp : p y = true
    · have h1 : q y = false := hpq y hp
      have h2 : q (f y) = false := by rw [hq]; exact h1
      rw [updateFirst, if_pos hp, List.find?_cons_of_neg _ (by simp [h2]),
        List.find?_cons_of_neg _ (by simp [h1])]
    · rw [updateFirst, if_neg hp]
      by_cases hqy : q y = true
      · rw [List.find?_cons_of_pos _ hqy, List.find?_cons_of_pos _ hqy]
      · rw [List.find?_cons_of_neg _ (by simp [hqy]),
          List.find?_cons_of_neg _ (by simp [hqy]), ih]

theorem length_filter_updateFirst_le {α} {p Q : α → Bool} {f : α → α} {l : List α} {x : α}
    (hfind : l.find? p = some x) (himp : Q (f x) = true → Q x = true) :
    ((updateFirst p f l).filter Q).length ≤ (l.filter Q).length := by
  induction l with
  | nil => simp at hfind
  | cons y ys ih =>
    by_cases hp : p y = true
    · rw [List.find?_cons_of_pos _ hp] at hfind
      have hxy : y = x := by injection hfind
      subst hxy
      rw [updateFirst, if_pos hp]
      by_cases hQf : Q (f y) = true
      · have hQy := himp hQf
        simp [List.filter_cons, hQf, hQy]
      · rw [List.filter_cons_of_neg (by simp [hQf])]
        by_cases hQy : Q y = true
        · rw [List.filter_cons_of_pos hQy]
          simp
        · rw [List.filter_cons_of_neg (by simp [hQy])]
    · rw [List.find?_cons_of_neg _ (by simp [hp])] at hfind
      rw [updateFirst, if_neg hp]
      by_cases hQy : Q y = true
      · rw [List.filter_cons_of_pos hQy, List.filter_cons_of_pos hQy]
        simpa using ih hfind
      · rw [List.filter_cons_of_neg (by simp [hQy]), List.filter_cons_of_neg (by simp [hQy])]
        exact ih hfind

theorem length_filter_updateFirst_eq {α} {p Q : α → Bool} {f : α → α} {l : List α} {x : α}
    (hfind : l.find? p = some x) (hQ : Q (f x) = Q x) :
    ((updateFirst p f l).filter Q).length = (l.filter Q).length := by
  induction l with
  | nil => simp at hfind
  | cons y ys ih =>
    by_cases hp : p y = true
    · rw [List.find?_cons_of_pos _ hp] at hfind
      have hxy : y = x := by injection hfind
      subst hxy
      rw [updateFirst, if_pos hp]
      by_cases hQy : Q y = true
      · rw [List.filter_cons_of_pos hQy, List.filter_cons_of_pos (by rw [hQ]; exact hQy)]
        simp
      · rw [List.filter_cons_of_neg (by rw [hQ]; simp [hQy]),
          List.filter_cons_of_neg (by simp [hQy])]
    · rw [List.find?_cons_of_neg _ (by simp [hp])] at hfind
      rw [updateFirst, if_neg hp]
      by_cases hQy : Q y = true
      · rw [List.filter_cons_of_pos hQy, List.filter_cons_of_pos hQy]
        simpa using ih hfind
      · rw [List.filter_cons_of_neg (by simp [hQy]), List.filter_cons_of_neg (by simp [hQy])]
        exact ih hfind

theorem length_filter_mono {α} {p q : α → Bool} {l : List α}
    (h : ∀ a ∈ l, p a = true → q a = true) :
    (l.filter p).length ≤ (l.filter q).length := by
  induction l with
  | nil => simp
  | cons x xs ih =>
    have ih' := ih (fun a ha => h a (List.mem_cons_of_mem x ha))
    by_cases hp : p x = true
    · rw [List.filter_cons_of_pos hp,
        List.filter_cons_of_pos (h x (List.mem_cons_self x xs) hp)]
      simpa using ih'
    · rw [List.filter_cons_of_neg (by simp [hp])]
      by_cases hq : q x = true
      · rw [List.filter_cons_of_pos hq]
        exact le_trans ih' (by simp)
      · rw [List.filter_cons_of_neg (by simp [hq])]
        exact ih'

theorem foldl_preserves {α β} (P : α → Prop) (g : α → β → α)
    (hstep : ∀ acc b, P acc → P (g acc b)) :
    ∀ (l : List β) (acc : α), P acc → P (l.foldl g acc)
  | [], _, h => h
  | b :: l, acc, h => foldl_preserves P g hstep l (g acc b) (hstep acc b h)

/-! ### Per-route characterizations of the store effect -/

theorem apply_store (role : String) (uid job_id now newId : Nat) (s : Store) :
    (apply role uid job_id now newId s).1 = s ∨
    (s.applications.find? (is_active_for uid) = none ∧
      (apply role uid job_id now newId s).1 =
        { s with
            applications := s.applications ++
              [{ id := newId, job_id := job_id, user_id := uid, student_id := none,
                 status := "pending_resume", applied_at := now,
                 resume_deadline := now + 48, resume_uploaded_at := none,
                 resume_filename := none, photo_filename := none,
                 teacher_feedback := none, updated_at := none }],
            jobs := updateFirst (fun j => j.id == job_id && decide (0 < j.vacancies))
              (fun j => { j with vacancies := j.vacancies - 1 }) s.jobs }) := by
  unfold apply
  split
  · exact Or.inl rfl
  · split
    · exact Or.inl rfl
    · rename_i hfind
      split
      · exact Or.inl rfl
      · dsimp only
        split
        · exact Or.inl rfl
        · exact Or.inr ⟨hfind, rfl⟩

theorem upload_store (uid : Nat) (sid : String) (app_id : Nat)
    (resume photo : Option String) (now : Nat) (s : Store) :
    (upload uid sid app_id resume photo now s).1 = s ∨
    (∃ app_doc rf pf, s.applications.find? (fun a => a.id == app_id) = some app_doc ∧
      (app_doc.status = "pending_resume" ∨ app_doc.status = "corrections_needed") ∧
      (upload uid sid app_id resume photo now s).1 =
        { s with applications :=
            updateFirst (fun a => a.id == app_id) (submitSet rf pf now) s.applications }) := by
  unfold upload
  split
  · exact Or.inl rfl
  · rename_i app_doc hfind
    split
    · exact Or.inl rfl
    · split
      · exact Or.inl rfl
      · rename_i howner hstat
        dsimp only
        split
        · exact Or.inl rfl
        · split
          · exact Or.inl rfl
          · split
            · exact Or.inl rfl
            · refine Or.inr ⟨app_doc, _, _, hfind, ?_, rfl⟩
              have hb : (app_doc.status == "pending_resume"
                  || app_doc.status == "corrections_needed") = true := by
                revert hstat
                cases app_doc.status == "pending_resume"
                  || app_doc.status == "corrections_needed" <;> simp
              rcases (Bool.or_eq_true _ _).mp hb with hx | hx
              exacts [Or.inl (beq_iff_eq.mp hx), Or.inr (beq_iff_eq.mp hx)]

theorem upload_resume_of_all_none (sid : String) (job_id : Nat)
    (resume photo : Option String) (now : Nat) (s : Store)
    (h : ∀ a ∈ s.applications, a.student_id = none) :
    (upload_resume sid job_id resume photo now s).1 = s := by
  unfold upload_resume
  split
  · rfl
  · split
    · rfl
    · rename_i application hfind
      have hmem := List.mem_of_find?_eq_some hfind
      have hp := List.find?_some hfind
      rw [h application hmem] at hp
      simp at hp

theorem resume_reupload_of_no_corrections (uid : Nat) (sid : String) (app_id : Nat)
    (resume photo : Option String) (now : Nat) (s : Store)
    (h : ∀ a ∈ s.applications, a.status ≠ "corrections_needed") :
    (resume_reupload uid sid app_id resume photo now s).1 = s := by
  unfold resume_reupload
  split
  · rfl
  · rename_i app_doc hfind
    split
    · rfl
    · split
      · rfl
      · rename_i howner hstat
        exfalso
        have hmem := List.mem_of_find?_eq_some hfind
        refine h app_doc hmem ?_
        refine beq_iff_eq.mp ?_
        revert hstat
        cases app_doc.status == "corrections_needed" <;> simp

theorem assess_students_store (role : String) (app_id : Option Nat)
    (ns fb : String) (s : Store) :
    (assess_students role app_id ns fb s).1 = s ∨
    (∃ aid, app_id = some aid ∧
      (ns = "approved" ∨ ns = "rejected" ∨ ns = "needs_corrections") ∧
      (assess_students role app_id ns fb s).1 =
        { s with applications :=
            updateFirst (fun a => a.id == aid) (assessSet ns (stripStr fb)) s.applications }) := by
  unfold assess_students
  split
  · exact Or.inl rfl
  · split
    · exact Or.inl rfl
    · rename_i aid
      split
      · rename_i hval
        refine Or.inr ⟨aid, rfl, ?_, rfl⟩
        rcases (Bool.or_eq_true _ _).mp hval with h | h
        · rcases (Bool.or_eq_true _ _).mp h with h1 | h1
          · exact Or.inl (beq_iff_eq.mp h1)
          · exact Or.inr (Or.inl (beq_iff_eq.mp h1))
        · exact Or.inr (Or.inr (beq_iff_eq.mp h))
      · exact Or.inl rfl

theorem clear_application_bulk_store (role : String) (app_ids : List Nat) (s : Store) :
    (clear_application_bulk role app_ids s).1 = s ∨
    (clear_application_bulk role app_ids s).1 =
      { s with
          applications := s.applications.filter (fun a => !(app_ids.contains a.id)),
          jobs := applyTally
            (tallyJobs (s.applications.filter (fun a => app_ids.contains a.id)))
            s.jobs } := by
  unfold clear_application_bulk
  split
  · exact Or.inl rfl
  · split
    · exact Or.inl rfl
    · exact Or.inr rfl

/-! ### Preservation of the applications invariant along traces -/

theorem updateFirst_forall {α} {P : α → Prop} {p : α → Bool} {f : α → α} {l : List α}
    (hl : ∀ x ∈ l, P x) (hf : ∀ x ∈ l, p x = true → P (f x)) :
    ∀ x ∈ updateFirst p f l, P x := by
  intro x hx
  rcases mem_updateFirst hx with h | ⟨y, hy, hpy, rfl⟩
  · exact hl x h
  · exact hf y hy hpy

theorem inv_apply (role : String) (uid job_id now newId : Nat) (s : Store)
    (h : Inv s) : Inv ((apply role uid job_id now newId s).1) := by
  rcases apply_store role uid job_id now newId s with heq | ⟨hfind, heq⟩
  · rw [heq]; exact h
  · rw [heq]
    obtain ⟨h1, h2, h3⟩ := h
    refine ⟨?_, ?_, ?_⟩
    · intro a ha
      rcases List.mem_append.mp ha with hmem | hmem
      · exact h1 a hmem
      · obtain rfl := List.mem_singleton.mp hmem
        rfl
    · intro a ha
      rcases List.mem_append.mp ha with hmem | hmem
      · exact h2 a hmem
      · obtain rfl := List.mem_singleton.mp hmem
        exact (by decide : ¬ ("pending_resume" = "corrections_needed"))
    · intro uid'
      show ((s.applications ++ [_]).filter (is_active_for uid')).length ≤ 1
      rw [List.filter_append, List.length_append]
      by_cases huid : uid' = uid
      · subst huid
        have hz : s.applications.filter (is_active_for uid') = [] :=
          List.filter_eq_nil_iff.mpr (List.find?_eq_none.mp hfind)
        rw [hz]
        simp [is_active_for, activeStatuses]
      · have hno : is_active_for uid'
            { id := newId, job_id := job_id, user_id := uid, student_id := none,
              status := "pending_resume", applied_at := now,
              resume_deadline := now + 48, resume_uploaded_at := none,
              resume_filename := none, photo_filename := none,
              teacher_feedback := none, updated_at := none } = false := by
          simp [is_active_for]
          intro hc
          exact absurd hc.symm huid
        rw [List.filter_cons_of_neg (by simp [hno]), List.filter_nil]
        simpa using h3 uid'

theorem inv_upload (uid : Nat) (sid : String) (app_id : Nat)
    (resume photo : Option String) (now : Nat) (s : Store)
    (h : Inv s) : Inv ((upload uid sid app_id resume photo now s).1) := by
  rcases upload_store uid sid app_id resume photo now s with
    heq | ⟨app_doc, rf, pf, hfind, hstat, heq⟩
  · rw [heq]; exact h
  · rw [heq]
    obtain ⟨h1, h2, h3⟩ := h
    have hmem := List.mem_of_find?_eq_some hfind
    have hpend : app_doc.status = "pending_resume" := by
      rcases hstat with hx | hx
      · exact hx
      · exact absurd hx (h2 app_doc hmem)
    refine ⟨?_, ?_, ?_⟩
    · exact updateFirst_forall h1 (fun y hy _ => by simpa [submitSet] using h1 y hy)
    · exact updateFirst_forall h2 (fun y hy _ => by simp [submitSet])
    · intro uid'
      refine le_trans (le_of_eq (length_filter_updateFirst_eq hfind ?_)) (h3 uid')
      simp [is_active_for, submitSet, activeStatuses, hpend]

theorem inv_upload_resume (sid : String) (job_id : Nat)
    (resume photo : Option String) (now : Nat) (s : Store)
    (h : Inv s) : Inv ((upload_resume sid job_id resume photo now s).1) := by
  rw [upload_resume_of_all_none sid job_id resume photo now s h.1]
  exact h

theorem inv_reupload (uid : Nat) (sid : String) (app_id : Nat)
    (resume photo : Option String) (now : Nat) (s : Store)
    (h : Inv s) : Inv ((resume_reupload uid sid app_id resume photo now s).1) := by
  rw [resume_reupload_of_no_corrections uid sid app_id resume photo now s h.2.1]
  exact h

theorem inv_assess (role : String) (app_id : Option Nat) (ns fb : String) (s : Store)
    (h : Inv s) (hok : assessOk s (.opAssess role app_id ns fb) = true) :
    Inv ((assess_students role app_id ns fb s).1) := by
  rcases assess_students_store role app_id ns fb s with heq | ⟨aid, haid, hval, heq⟩
  · rw [heq]; exact h
  · rw [heq]
    obtain ⟨h1, h2, h3⟩ := h
    subst haid
    cases hf : s.applications.find? (fun a => a.id == aid) with
    | none =>
      rw [updateFirst_of_find?_none hf]
      exact ⟨h1, h2, h3⟩
    | some a =>
      have hsub : a.status = "submitted" := by
        simp only [assessOk] at hok
        rw [hf] at hok
        exact beq_iff_eq.mp hok
      refine ⟨?_, ?_, ?_⟩
      · exact updateFirst_forall h1 (fun y hy _ => by simpa [assessSet] using h1 y hy)
      · exact updateFirst_forall h2 (fun y hy _ => by
          rcases hval with hx | hx | hx <;> simp [assessSet, hx])
      · intro uid'
        refine le_trans (length_filter_updateFirst_le hf ?_) (h3 uid')
        intro hQ
        have huser : (a.user_id == uid') = true := by
          simp [is_active_for, assessSet] at hQ
          exact (beq_iff_eq (a := a.user_id)).mpr hQ.1
        simp [is_active_for, huser, hsub, activeStatuses]

theorem inv_cleanup (now : Nat) (s : Store) (h : Inv s) : Inv (cleanup_deadlines now s) := by
  have key : ∀ (expired apps : List Application),
      InvApps apps → InvApps (sweepApps expired apps) := by
    intro expired
    refine fun apps hI => foldl_preserves InvApps _ ?_ expired apps hI
    intro acc doc hacc
    obtain ⟨g1, g2, g3⟩ := hacc
    cases hf : acc.find? (fun a => a.id == doc.id) with
    | none =>
      rw [updateFirst_of_find?_none hf]
      exact ⟨g1, g2, g3⟩
    | some x =>
      refine ⟨?_, ?_, ?_⟩
      · exact updateFirst_forall g1 (fun y hy _ => by simpa [rejectAutoSet] using g1 y hy)
      · exact updateFirst_forall g2 (fun y hy _ => by simp [rejectAutoSet])
      · intro uid'
        refine le_trans (length_filter_updateFirst_le hf ?_) (g3 uid')
        intro hQ
        exfalso
        simp [is_active_for, rejectAutoSet, activeStatuses] at hQ
  exact key _ _ h

theorem inv_clear (role : String) (app_ids : List Nat) (s : Store)
    (h : Inv s) : Inv ((clear_application_bulk role app_ids s).1) := by
  rcases clear_application_bulk_store role app_ids s with heq | heq
  · rw [heq]; exact h
  · rw [heq]
    obtain ⟨h1, h2, h3⟩ := h
    refine ⟨?_, ?_, ?_⟩
    · exact fun a ha => h1 a (List.mem_of_mem_filter ha)
    · exact fun a ha => h2 a (List.mem_of_mem_filter ha)
    · intro uid'
      refine le_trans ?_ (h3 uid')
      exact List.Sublist.length_le (List.Sublist.filter _ (List.filter_sublist _))

theorem inv_step (s : Store) (op : Op) (h : Inv s) (hok : assessOk s op = true) :
    Inv (step s op) := by
  cases op with
  | opApply role uid jid now nid => exact inv_apply role uid jid now nid s h
  | opUpload uid sid app_id r p now => exact inv_upload uid sid app_id r p now s h
  | opUploadResume sid jid r p now => exact inv_upload_resume sid jid r p now s h
  | opReupload uid sid app_id r p now => exact inv_reupload uid sid app_id r p now s h
  | opAssess role app_id ns fb => exact inv_assess role app_id ns fb s h hok
  | opCleanup now => exact inv_cleanup now s h
  | opClear role app_ids => exact inv_clear role app_ids s h

theorem inv_execTrace (ops : List Op) (s : Store) (h : Inv s)
    (hgood : goodTrace s ops = true) : Inv (execTrace s ops) := by
  induction ops generalizing s with
  | nil => exact h
  | cons op ops ih =>
    rw [goodTrace] at hgood
    obtain ⟨hok, hrest⟩ := (Bool.and_eq_true _ _).mp hgood
    exact ih (step s op) (inv_step s op h hok) hrest

/-! ### Preservation of the vacancy invariant -/

theorem jobs_apply (role : String) (uid job_id now newId : Nat) (s : Store)
    (h : JobsNonneg s.jobs) : JobsNonneg ((apply role uid job_id now newId s).1).jobs := by
  rcases apply_store role uid job_id now newId s with heq | ⟨_, heq⟩
  · rw [heq]; exact h
  · rw [heq]
    refine updateFirst_forall h ?_
    intro j _ hpj
    have hpos : (0 : Int) < j.vacancies :=
      of_decide_eq_true ((Bool.and_eq_true _ _).mp hpj).2
    show (0 : Int) ≤ j.vacancies - 1
    omega

theorem upload_jobs (uid : Nat) (sid : String) (app_id : Nat)
    (r p : Option String) (now : Nat) (s : Store) :
    ((upload uid sid app_id r p now s).1).jobs = s.jobs := by
  rcases upload_store uid sid app_id r p now s with heq | ⟨_, _, _, _, _, heq⟩ <;>
    rw [heq]

theorem upload_resume_jobs (sid : String) (jid : Nat) (r p : Option String)
    (now : Nat) (s : Store) :
    ((upload_resume sid jid r p now s).1).jobs = s.jobs := by
  unfold upload_resume
  split
  · rfl
  · split
    · rfl
    · split
      · rfl
      · rfl

theorem resume_reupload_jobs (uid : Nat) (sid : String) (app_id : Nat)
    (r p : Option String) (now : Nat) (s : Store) :
    ((resume_reupload uid sid app_id r p now s).1).jobs = s.jobs := by
  unfold resume_reupload
  split
  · rfl
  · split
    · rfl
    · split
      · rfl
      · split
        · rfl
        · rfl

theorem assess_students_jobs (role : String) (app_id : Option Nat)
    (ns fb : String) (s : Store) :
    ((assess_students role app_id ns fb s).1).jobs = s.jobs := by
  rcases assess_students_store role app_id ns fb s with heq | ⟨_, _, _, heq⟩ <;>
    rw [heq]

theorem jobs_clear (role : String) (app_ids : List Nat) (s : Store)
    (h : JobsNonneg s.jobs) : JobsNonneg ((clear_application_bulk role app_ids s).1).jobs := by
  rcases clear_application_bulk_store role app_ids s with heq | heq
  · rw [heq]; exact h
  · rw [heq]
    show JobsNonneg (applyTally _ s.jobs)
    refine foldl_preserves JobsNonneg _ ?_ _ s.jobs h
    intro js kv hjs
    refine updateFirst_forall hjs ?_
    intro j hj _
    have h0 := hjs j hj
    show (0 : Int) ≤ j.vacancies + (kv.2 : Int)
    omega

theorem jobs_step (s : Store) (op : Op) (h : JobsNonneg s.jobs) :
    JobsNonneg (step s op).jobs := by
  cases op with
  | opApply role uid jid now nid => exact jobs_apply role uid jid now nid s h
  | opUpload uid sid app_id r p now =>
    show JobsNonneg ((upload uid sid app_id r p now s).1).jobs
    rw [upload_jobs]; exact h
  | opUploadResume sid jid r p now =>
    show JobsNonneg ((upload_resume sid jid r p now s).1).jobs
    rw [upload_resume_jobs]; exact h
  | opReupload uid sid app_id r p now =>
    show JobsNonneg ((resume_reupload uid sid app_id r p now s).1).jobs
    rw [resume_reupload_jobs]; exact h
  | opAssess role app_id ns fb =>
    show JobsNonneg ((assess_students role app_id ns fb s).1).jobs
    rw [assess_students_jobs]; exact h
  | opCleanup now => exact h
  | opClear role app_ids => exact jobs_clear role app_ids s h

theorem jobs_execTrace (ops : List Op) (s : Store) (h : JobsNonneg s.jobs) :
    JobsNonneg (execTrace s ops).jobs := by
  induction ops generalizing s with
  | nil => exact h
  | cons op ops ih => exact ih (step s op) (jobs_step s op h)

/-! ### The sweep as a pointwise rewrite (stores with unique document ids) -/

theorem rejectAutoSet_id (a : Application) : (rejectAutoSet a).id = a.id := rfl

theorem updateFirst_id_eq_map {l : List Application}
    (hnd : (l.map Application.id).Nodup) (i : Nat) (f : Application → Application) :
    updateFirst (fun a => a.id == i) f l =
      l.map (fun a => if a.id == i then f a else a) := by
  induction l with
  | nil => rfl
  | cons x xs ih =>
    rw [List.map_cons] at hnd
    have hnd' : (xs.map Application.id).Nodup := (List.nodup_cons.mp hnd).2
    by_cases hp : (x.id == i) = true
    · rw [updateFirst, if_pos hp, List.map_cons, if_pos hp]
      have hxid : x.id = i := beq_iff_eq.mp hp
      have hnotin : x.id ∉ xs.map Application.id := (List.nodup_cons.mp hnd).1
      have hpt : ∀ a ∈ xs, (if a.id == i then f a else a) = a := by
        intro a ha
        have hne : ¬(a.id = i) := by
          intro hai
          exact hnotin (by rw [hxid, ← hai]; exact List.mem_map_of_mem Application.id ha)
        simp [hne]
      rw [List.map_congr_left hpt]
      simp
    · rw [updateFirst, if_neg hp, List.map_cons, if_neg hp]
      exact congrArg (x :: ·) (ih hnd')

theorem map_id_if_rejectAutoSet (q : Application → Bool) (l : List Application) :
    (l.map (fun a => if q a then rejectAutoSet a else a)).map Application.id =
      l.map Application.id := by
  rw [List.map_map]
  refine List.map_congr_left ?_
  intro a _
  by_cases h : q a = true <;> simp [h, rejectAutoSet]

theorem sweep_fold_eq_map (ds : List Application) :
    ∀ (l : List Application), (l.map Application.id).Nodup →
      ds.foldl (fun apps doc =>
        updateFirst (fun a => a.id == doc.id) rejectAutoSet apps) l =
        l.map (fun a =>
          if (ds.map Application.id).contains a.id then rejectAutoSet a else a) := by
  induction ds with
  | nil =>
    intro l _
    have hpt : ∀ a ∈ l,
        (if (([] : List Application).map Application.id).contains a.id
          then rejectAutoSet a else a) = a := by
      intro a _
      simp [List.contains]
    rw [List.foldl_nil, List.map_congr_left hpt]
    simp
  | cons d ds ih =>
    intro l hnd
    rw [List.foldl_cons, updateFirst_id_eq_map hnd d.id rejectAutoSet]
    have hnd2 : ((l.map (fun a => if a.id == d.id then rejectAutoSet a else a)).map
        Application.id).Nodup := by
      rw [show (fun a : Application => if a.id == d.id then rejectAutoSet a else a)
          = (fun a => if (fun x : Application => x.id == d.id) a then rejectAutoSet a else a)
        from rfl]
      rw [map_id_if_rejectAutoSet]
      exact hnd
    rw [ih _ hnd2, List.map_map]
    refine List.map_congr_left ?_
    intro a _
    have hrr : rejectAutoSet (rejectAutoSet a) = rejectAutoSet a := rfl
    by_cases h1 : (a.id == d.id) = true
    · have hid : a.id = d.id := beq_iff_eq.mp h1
      simp [Function.comp, h1, rejectAutoSet_id, List.contains_cons, hrr, hid]
    · have hne : ¬(a.id = d.id) := fun hh => h1 (beq_iff_eq.mpr hh)
      simp [Function.comp, h1, rejectAutoSet_id, List.contains_cons, hne]

theorem cleanup_deadlines_eq_map (now : Nat) (s : Store)
    (hnd : (s.applications.map Application.id).Nodup) :
    cleanup_deadlines now s =
      { s with applications := s.applications.map (sweepMark now) } := by
  unfold cleanup_deadlines sweepApps
  dsimp only
  rw [sweep_fold_eq_map _ _ hnd]
  have hpt : ∀ a ∈ s.applications,
      (if ((s.applications.filter (cleanupPred now)).map Application.id).contains a.id
        then rejectAutoSet a else a)
      = sweepMark now a := by
    intro a ha
    have hcond : ((s.applications.filter (cleanupPred now)).map Application.id).contains a.id
        = cleanupPred now a := by
      by_cases hc : cleanupPred now a = true
      · rw [hc]
        have hmem : a.id ∈ (s.applications.filter (cleanupPred now)).map Application.id :=
          List.mem_map_of_mem Application.id (List.mem_filter.mpr ⟨ha, hc⟩)
        exact List.elem_eq_true_of_mem hmem
      · rw [Bool.eq_false_iff.mpr hc, Bool.eq_false_iff]
        intro hcont
        obtain ⟨b, hbmem, hbid⟩ := List.mem_map.mp (List.mem_of_elem_eq_true hcont)
        obtain ⟨hbl, hbpred⟩ := List.mem_filter.mp hbmem
        have hba : b = a := List.inj_on_of_nodup_map hnd hbl ha hbid
        rw [hba] at hbpred
        exact hc hbpred
    rw [hcond, sweepMark]
  rw [List.map_congr_left hpt]

theorem cleanup_nodup (now : Nat) (s : Store)
    (hnd : (s.applications.map Application.id).Nodup) :
    ((cleanup_deadlines now s).applications.map Application.id).Nodup := by
  rw [cleanup_deadlines_eq_map now s hnd]
  show ((s.applications.map (sweepMark now)).map Application.id).Nodup
  rw [show sweepMark now
      = (fun a => if cleanupPred now a then rejectAutoSet a else a) from rfl]
  rw [map_id_if_rejectAutoSet (cleanupPred now)]
  exact hnd

theorem sweepMark_idem (now : Nat) (a : Application) :
    sweepMark now (sweepMark now a) = sweepMark now a := by
  unfold sweepMark
  by_cases h : cleanupPred now a = true
  · rw [if_pos h, if_pos (show cleanupPred now (rejectAutoSet a) = true from h)]
    rfl
  · rw [if_neg h, if_neg h]

/-! ### Bookkeeping of the bulk clear -/

theorem lookupTally_bumpTally (t : List (Nat × Nat)) (j k : Nat) :
    lookupTally (bumpTally t j) k =
      if j = k then lookupTally t k + 1 else lookupTally t k := by
  induction t with
  | nil =>
    by_cases h : j = k <;> simp [bumpTally, lookupTally, h]
  | cons kv t ih =>
    obtain ⟨k1, c1⟩ := kv
    by_cases h1 : k1 = j
    · subst h1
      by_cases h2 : k1 = k
      · subst h2
        simp [bumpTally, lookupTally]
      · simp [bumpTally, lookupTally, h2, fun hh => h2 (Eq.symm hh)]
    · by_cases h2 : j = k
      · subst h2
        have h3 : ¬(k1 = j) := h1
        simp [bumpTally, lookupTally, h3, ih]
      · by_cases h3 : k1 = k
        · subst h3
          simp [bumpTally, lookupTally, h1, h2, ih]
        · simp [bumpTally, lookupTally, h1, h2, h3, ih]

theorem lookupTally_foldl (apps : List Application) (k : Nat) :
    ∀ t, lookupTally (apps.foldl (fun t a => bumpTally t a.job_id) t) k =
      lookupTally t k + (apps.filter (fun a => a.job_id == k)).length := by
  induction apps with
  | nil => intro t; simp
  | cons a apps ih =>
    intro t
    rw [List.foldl_cons, ih, lookupTally_bumpTally]
    by_cases h : a.job_id = k
    · rw [if_pos h, List.filter_cons_of_pos (by simp [h])]
      simp only [List.length_cons]
      omega
    · rw [if_neg h, List.filter_cons_of_neg (by simp [h])]

theorem tallyJobs_lookup (apps : List Application) (k : Nat) :
    lookupTally (tallyJobs apps) k = (apps.filter (fun a => a.job_id == k)).length := by
  unfold tallyJobs
  rw [lookupTally_foldl]
  simp [lookupTally]

theorem keys_bumpTally (t : List (Nat × Nat)) (j : Nat) :
    (bumpTally t j).map Prod.fst =
      if j ∈ t.map Prod.fst then t.map Prod.fst else t.map Prod.fst ++ [j] := by
  induction t with
  | nil => simp [bumpTally]
  | cons kv t ih =>
    obtain ⟨k1, c1⟩ := kv
    by_cases h1 : k1 = j
    · subst h1
      simp [bumpTally]
    · have h1b : ¬((k1 == j) = true) := by simp [h1]
      simp only [bumpTally, if_neg h1b, List.map_cons, ih]
      by_cases h2 : j ∈ t.map Prod.fst
      · rw [if_pos h2, if_pos (by simp [h2] : j ∈ k1 :: t.map Prod.fst)]
      · have hnotc : ¬(j ∈ k1 :: t.map Prod.fst) := by
          intro hmem
          rcases List.mem_cons.mp hmem with hh | hh
          · exact h1 (Eq.symm hh)
          · exact h2 hh
        rw [if_neg h2, if_neg hnotc, List.cons_append]

theorem nodup_keys_bumpTally {t : List (Nat × Nat)} (j : Nat)
    (h : (t.map Prod.fst).Nodup) : ((bumpTally t j).map Prod.fst).Nodup := by
  rw [keys_bumpTally]
  by_cases hmem : j ∈ t.map Prod.fst
  · rw [if_pos hmem]; exact h
  · rw [if_neg hmem]
    refine List.Nodup.append h (List.nodup_singleton j) ?_
    intro x hx hx'
    obtain rfl := List.mem_singleton.mp hx'
    exact hmem hx

theorem nodup_keys_tallyJobs (apps : List Application) :
    ((tallyJobs apps).map Prod.fst).Nodup := by
  unfold tallyJobs
  have h0 : ((([] : List (Nat × Nat))).map Prod.fst).Nodup := by simp
  exact foldl_preserves (fun t => (t.map Prod.fst).Nodup)
    (fun t a => bumpTally t a.job_id)
    (fun t a ht => nodup_keys_bumpTally a.job_id ht) apps [] h0

theorem lookupTally_eq_zero {t : List (Nat × Nat)} {k : Nat}
    (h : k ∉ t.map Prod.fst) : lookupTally t k = 0 := by
  induction t with
  | nil => rfl
  | cons kv t ih =>
    obtain ⟨k1, c1⟩ := kv
    have h1 : ¬(k1 = k) := by
      intro hh
      exact h (by simp [hh])
    have h1b : ¬((k1 == k) = true) := by simp [h1]
    show (if (k1 == k) = true then c1 else lookupTally t k) = 0
    rw [if_neg h1b]
    exact ih (fun hh => h (by simp [hh]))

theorem find?_applyTally (t : List (Nat × Nat)) (hnd : (t.map Prod.fst).Nodup)
    (js : List Job) (k : Nat) (j : Job)
    (hfind : js.find? (fun x => x.id == k) = some j) :
    (applyTally t js).find? (fun x => x.id == k) =
      some { j with vacancies := j.vacancies + (lookupTally t k : Int) } := by
  induction t generalizing js j with
  | nil =>
    rw [show ((lookupTally [] k : Nat) : Int) = 0 from rfl, add_zero]
    exact hfind
  | cons kv t ih =>
    obtain ⟨k1, c1⟩ := kv
    rw [List.map_cons] at hnd
    have hnd' : (t.map Prod.fst).Nodup := (List.nodup_cons.mp hnd).2
    have hk1 : k1 ∉ t.map Prod.fst := (List.nodup_cons.mp hnd).1
    rw [show applyTally ((k1, c1) :: t) js = applyTally t
        (updateFirst (fun x => x.id == k1)
          (fun x => { x with vacancies := x.vacancies + (c1 : Int) }) js) from rfl]
    by_cases h : k1 = k
    · subst h
      have hf : (updateFirst (fun x => x.id == k1)
          (fun x => { x with vacancies := x.vacancies + (c1 : Int) }) js).find?
            (fun x => x.id == k1) =
          some { j with vacancies := j.vacancies + (c1 : Int) } := by
        rw [find?_updateFirst_self (fun x => x.id == k1)
          (fun x => { x with vacancies := x.vacancies + (c1 : Int) }) js (fun x => rfl),
          hfind]
        rfl
      rw [ih hnd' _ _ hf]
      have hz : lookupTally ((k1, c1) :: t) k1 = c1 := by
        show (if (k1 == k1) = true then c1 else lookupTally t k1) = c1
        rw [if_pos (beq_self_eq_true k1)]
      rw [hz, lookupTally_eq_zero hk1]
      simp

    · have hf : (updateFirst (fun x => x.id == k1)
          (fun x => { x with vacancies := x.vacancies + (c1 : Int) }) js).find?
            (fun x => x.id == k) = js.find? (fun x => x.id == k) := by
        refine find?_updateFirst_other (fun x => x.id == k1) (fun x => x.id == k)
          (fun x => { x with vacancies := x.vacancies + (c1 : Int) }) js
          (fun x => rfl) ?_
        intro x hx
        have hxk : x.id = k1 := beq_iff_eq.mp hx
        simp [hxk, h]
      rw [ih hnd' _ _ (by rw [hf]; exact hfind)]
      have hz : lookupTally ((k1, c1) :: t) k = lookupTally t k := by
        show (if (k1 == k) = true then c1 else lookupTally t k) = lookupTally t k
        rw [if_neg (by simp [h])]
      rw [hz]

/-! ### Successful submissions -/

theorem upload_success (uid : Nat) (sid : String) (app_id : Nat)
    (resume photo : Option String) (now : Nat) (s : Store) (app_doc : Application)
    (hfind : s.applications.find? (fun a => a.id == app_id) = some app_doc)
    (howner : app_doc.user_id = uid)
    (hstat : app_doc.status = "pending_resume" ∨ app_doc.status = "corrections_needed")
    (hr : filePresent resume = true) (hp : filePresent photo = true)
    (hre : [".pdf", ".doc", ".docx"].contains (lowerStr (splitext_ext (resume.getD ""))) = true)
    (hpe : [".jpg", ".jpeg", ".png"].contains (lowerStr (splitext_ext (photo.getD ""))) = true) :
    upload uid sid app_id resume photo now s =
      ({ s with applications :=
          (updateFirst (fun a => a.id == app_id)
            (submitSet
              (secure_filename (sid ++ "_" ++ toString app_id ++
                lowerStr (splitext_ext (resume.getD ""))))
              (secure_filename (sid ++ "_" ++ toString app_id ++ "_photo" ++
                lowerStr (splitext_ext (photo.getD ""))))
              now)
            s.applications) }, .success) := by
  have hstatb : (app_doc.status == "pending_resume"
      || app_doc.status == "corrections_needed") = true := by
    rcases hstat with h | h <;> simp [h]
  unfold upload
  rw [hfind]
  simp only [howner, hstatb, hr, hp]
  have hne1 : ¬((! [".pdf", ".doc", ".docx"].contains
      (lowerStr (splitext_ext (resume.getD "")))) = true) := by
    rw [hre]
    decide
  have hne2 : ¬((! [".jpg", ".jpeg", ".png"].contains
      (lowerStr (splitext_ext (photo.getD "")))) = true) := by
    rw [hpe]
    decide
  rw [if_neg (by simp), if_neg hne1, if_neg hne2]
  rw [if_neg (by decide), if_neg (by decide)]

theorem upload_resume_success (sid : String) (job_id : Nat)
    (resume photo : Option String) (now : Nat) (s : Store) (application : Application)
    (hr : filePresent resume = true) (hp : filePresent photo = true)
    (hfind : s.applications.find?
      (fun a => a.student_id == some sid && a.job_id == job_id) = some application)
    (hstat : application.status = "pending_resume"
      ∨ application.status = "corrections_needed") :
    upload_resume sid job_id resume photo now s =
      ({ s with applications :=
          (updateFirst (fun a => a.id == application.id)
            (uploadResumeSet (secure_filename (resume.getD ""))
              (secure_filename (photo.getD "")) now)
            s.applications) }, .success) := by
  have hstatb : (application.status == "pending_resume"
      || application.status == "corrections_needed") = true := by
    rcases hstat with h | h <;> simp [h]
  unfold upload_resume
  rw [hfind]
  simp [hstatb, hr, hp]

/-! ### The claims -/

/-- C1: the specification's scenario Assess(app, "corrections_needed",
feedback) followed by a successful SubmitResume fails on the code: the
assess route accepts only the literal decision `needs_corrections`, so the
decision the specification names is flashed as invalid data and changes
nothing; and after assessing with the accepted literal
`needs_corrections`, both resubmission entry points refuse the
application, because they demand the literal status `corrections_needed`.
The code contradicts its own status enumeration (its filter lists and its
export name `corrections_needed` only), so this is a defect of the code
rather than of the specification. -/
theorem assess_corrections_needed_code_bug :
    assess_students "teacher" (some 1) "corrections_needed" "fix formatting" demoStore
      = (demoStore, AssessResult.invalidData)
    ∧ (((assess_students "teacher" (some 1) "needs_corrections" "fix formatting"
          demoStore).1.applications.find? (fun a => a.id == 1)).map Application.status)
      = some "needs_corrections"
    ∧ resume_reupload 7 "S1" 1 (some "cv.pdf") (some "me.jpg") 20
        ((assess_students "teacher" (some 1) "needs_corrections" "fix formatting"
          demoStore).1)
      = ((assess_students "teacher" (some 1) "needs_corrections" "fix formatting"
          demoStore).1, ReuploadResult.notCorrections)
    ∧ (upload 7 "S1" 1 (some "cv.pdf") (some "me.jpg") 20
        ((assess_students "teacher" (some 1) "needs_corrections" "fix formatting"
          demoStore).1)).2
      = UploadResult.cannotModify := by
  decide

/-- C2: starting from a store whose jobs all have non-negative vacancy
counts, no sequence of requests — in particular any sequence of Apply and
ClearApplications — makes any job's vacancy count negative: Apply
decrements under the guard `vacancies > 0` and ClearApplications only adds
non-negative tallies. -/
theorem vacancies_never_negative (s0 : Store) (ops : List Op)
    (h : ∀ j ∈ s0.jobs, 0 ≤ j.vacancies) :
    ∀ j ∈ (execTrace s0 ops).jobs, 0 ≤ j.vacancies :=
  jobs_execTrace ops s0 h

/-- Witness for C2 at a concrete store and trace. -/
theorem vacancies_never_negative_witness :
    (∀ j ∈ twoJobsStore.jobs, 0 ≤ j.vacancies)
    ∧ ∀ j ∈ (execTrace twoJobsStore vacDemoTrace).jobs, 0 ≤ j.vacancies :=
  ⟨by decide, vacancies_never_negative twoJobsStore vacDemoTrace (by decide)⟩

/-- C3 (counterexample): the claimed bound of one active application per
student fails on the code.  Starting from a store with no applications, the
trace apply → assess rejected → apply → assess approved leaves student 7
with two applications whose statuses lie in
pending_resume/submitted/approved — the assess route never checks the
current status of the application it rewrites, so it can re-activate a
rejected application. -/
theorem active_two_after_assess_rejected :
    active_application_count 7 (execTrace twoJobsStore doubleActiveTrace) = 2
    ∧ ¬(active_application_count 7 (execTrace twoJobsStore doubleActiveTrace) ≤ 1) := by
  decide

/-- C3 (amended): starting from a store with no applications, along any
trace of Apply, SubmitResume, Assess, ExpireDeadlines and
ClearApplications requests in which every Assess targets an application
whose current status is `submitted` — as the specification's state-machine
table prescribes — every student has at most one application with status
in pending_resume/submitted/approved. -/
theorem active_application_at_most_one (s0 : Store) (ops : List Op) (uid : Nat)
    (h0 : s0.applications = []) (hgood : goodTrace s0 ops = true) :
    active_application_count uid (execTrace s0 ops) ≤ 1 := by
  have hInv : Inv s0 := by
    have hnil : InvApps ([] : List Application) := by
      refine ⟨?_, ?_, ?_⟩
      · intro a ha
        cases ha
      · intro a ha
        cases ha
      · intro uid'
        simp
    show InvApps s0.applications
    rw [h0]
    exact hnil
  exact (inv_execTrace ops s0 hInv hgood).2.2 uid

/-- Witness for the amended C3 at a concrete disciplined trace. -/
theorem active_application_at_most_one_witness :
    twoJobsStore.applications = [] ∧ goodTrace twoJobsStore goodDemoTrace = true
    ∧ active_application_count 7 (execTrace twoJobsStore goodDemoTrace) ≤ 1 :=
  ⟨rfl, by decide,
    active_application_at_most_one twoJobsStore goodDemoTrace 7 rfl (by decide)⟩

/-- C4: when the job exists, is open and records zero vacancies, and the
student has no active application, Apply reports the no-vacancies capacity
error and returns the store unchanged — the capacity check compares the
count of active applications (never negative) against the recorded zero. -/
theorem apply_capacity_error_when_no_vacancies (uid job_id now newId : Nat)
    (s : Store) (job : Job)
    (hnoactive : s.applications.find? (is_active_for uid) = none)
    (hjob : s.jobs.find? (fun j => j.id == job_id && j.status == "open") = some job)
    (hzero : job.vacancies = 0) :
    apply "student" uid job_id now newId s = (s, ApplyResult.noVacancies) := by
  unfold apply
  rw [if_neg (by decide), hnoactive, hjob]
  dsimp only
  rw [if_pos (by rw [hzero]; exact Int.natCast_nonneg _)]

/-- Witness for C4 at a concrete store whose job has zero vacancies. -/
theorem apply_capacity_error_witness :
    fullJobStore.applications.find? (is_active_for 7) = none
    ∧ fullJobStore.jobs.find? (fun j => j.id == 1 && j.status == "open")
        = some { id := 1, vacancies := 0, status := "open" }
    ∧ apply "student" 7 1 5 200 fullJobStore = (fullJobStore, ApplyResult.noVacancies) :=
  ⟨rfl, rfl, apply_capacity_error_when_no_vacancies 7 1 5 200 fullJobStore
    { id := 1, vacancies := 0, status := "open" } rfl rfl rfl⟩

/-- C5: on a store whose application documents carry distinct ids (as the
unique Mongo `_id` index guarantees), running the deadline sweep twice at
one fixed time equals running it once: the filter reads only
`resume_filename` and `resume_deadline`, which the sweep never changes, so
the second run rewrites the same documents to the status they already
have. -/
theorem expire_deadlines_idempotent (now : Nat) (s : Store)
    (hnd : (s.applications.map Application.id).Nodup) :
    cleanup_deadlines now (cleanup_deadlines now s) = cleanup_deadlines now s := by
  have h1 := cleanup_deadlines_eq_map now s hnd
  have hnd2 := cleanup_nodup now s hnd
  rw [cleanup_deadlines_eq_map now _ hnd2, h1]
  show ({ s with applications :=
      ((s.applications.map (sweepMark now)).map (sweepMark now)) } : Store)
    = { s with applications := s.applications.map (sweepMark now) }
  rw [List.map_map]
  have hpt : ∀ a ∈ s.applications,
      (sweepMark now ∘ sweepMark now) a = sweepMark now a :=
    fun a _ => sweepMark_idem now a
  rw [List.map_congr_left hpt]

/-- Witness for C5 at a concrete store. -/
theorem expire_deadlines_idempotent_witness :
    (expiredRejectedStore.applications.map Application.id).Nodup
    ∧ cleanup_deadlines 100 (cleanup_deadlines 100 expiredRejectedStore)
      = cleanup_deadlines 100 expiredRejectedStore :=
  ⟨by decide, expire_deadlines_idempotent 100 expiredRejectedStore (by decide)⟩

/-- C6 (counterexample): a successful SubmitResume through the
`/upload_resume/<job_id>` entry point does not clear the teacher feedback:
on an application in status corrections_needed with stored feedback, the
call succeeds, the status becomes submitted, and the feedback still reads
"fix the margins" instead of the empty string the claim demands. -/
theorem upload_resume_keeps_feedback :
    (upload_resume "S1" 1 (some "cv.pdf") (some "me.jpg") 10 legacyFeedbackStore).2
      = UploadResumeResult.success
    ∧ (((upload_resume "S1" 1 (some "cv.pdf") (some "me.jpg") 10
          legacyFeedbackStore).1.applications.find? (fun a => a.id == 3)).map
        Application.status) = some "submitted"
    ∧ (((upload_resume "S1" 1 (some "cv.pdf") (some "me.jpg") 10
          legacyFeedbackStore).1.applications.find? (fun a => a.id == 3)).map
        Application.teacher_feedback) = some (some "fix the margins")
    ∧ some (some "fix the margins") ≠ (some (some "") : Option (Option String)) := by
  decide

/-- C6 (amended): a successful SubmitResume through the `/upload/<app_id>`
entry point yields, on re-reading, status submitted, stored résumé and
photo filenames and empty teacher feedback regardless of the prior
feedback; through the `/upload_resume/<job_id>` entry point it yields
status submitted and stored filenames but leaves the re-read document's
teacher feedback exactly as it was before the call. -/
theorem submit_resume_round_trip :
    (∀ (uid : Nat) (sid : String) (app_id : Nat) (resume photo : Option String)
      (now : Nat) (s : Store) (app_doc : Application),
      s.applications.find? (fun a => a.id == app_id) = some app_doc →
      app_doc.user_id = uid →
      (app_doc.status = "pending_resume" ∨ app_doc.status = "corrections_needed") →
      filePresent resume = true → filePresent photo = true →
      [".pdf", ".doc", ".docx"].contains (lowerStr (splitext_ext (resume.getD ""))) = true →
      [".jpg", ".jpeg", ".png"].contains (lowerStr (splitext_ext (photo.getD ""))) = true →
      (upload uid sid app_id resume photo now s).2 = UploadResult.success ∧
      ∃ a, (upload uid sid app_id resume photo now s).1.applications.find?
          (fun x => x.id == app_id) = some a ∧
        a.status = "submitted" ∧ a.resume_filename.isSome = true ∧
        a.photo_filename.isSome = true ∧ a.teacher_feedback = some "")
    ∧ (∀ (sid : String) (job_id : Nat) (resume photo : Option String) (now : Nat)
      (s : Store) (application prior : Application),
      filePresent resume = true → filePresent photo = true →
      s.applications.find?
        (fun a => a.student_id == some sid && a.job_id == job_id) = some application →
      (application.status = "pending_resume"
        ∨ application.status = "corrections_needed") →
      s.applications.find? (fun a => a.id == application.id) = some prior →
      (upload_resume sid job_id resume photo now s).2 = UploadResumeResult.success ∧
      ∃ a, (upload_resume sid job_id resume photo now s).1.applications.find?
          (fun x => x.id == application.id) = some a ∧
        a.status = "submitted" ∧ a.resume_filename.isSome = true ∧
        a.photo_filename.isSome = true ∧
        a.teacher_feedback = prior.teacher_feedback) := by
  constructor
  · intro uid sid app_id resume photo now s app_doc hfind howner hstat hr hp hre hpe
    rw [upload_success uid sid app_id resume photo now s app_doc hfind howner hstat
      hr hp hre hpe]
    refine ⟨rfl, ?_⟩
    have hafter : (updateFirst (fun a => a.id == app_id)
        (submitSet
          (secure_filename (sid ++ "_" ++ toString app_id ++
            lowerStr (splitext_ext (resume.getD ""))))
          (secure_filename (sid ++ "_" ++ toString app_id ++ "_photo" ++
            lowerStr (splitext_ext (photo.getD ""))))
          now) s.applications).find? (fun x => x.id == app_id)
        = some (submitSet
          (secure_filename (sid ++ "_" ++ toString app_id ++
            lowerStr (splitext_ext (resume.getD ""))))
          (secure_filename (sid ++ "_" ++ toString app_id ++ "_photo" ++
            lowerStr (splitext_ext (photo.getD ""))))
          now app_doc) := by
      rw [find?_updateFirst_self (fun a => a.id == app_id)
        (submitSet
          (secure_filename (sid ++ "_" ++ toString app_id ++
            lowerStr (splitext_ext (resume.getD ""))))
          (secure_filename (sid ++ "_" ++ toString app_id ++ "_photo" ++
            lowerStr (splitext_ext (photo.getD ""))))
          now) s.applications (fun x => rfl), hfind]
      rfl
    exact ⟨_, hafter, rfl, rfl, rfl, rfl⟩
  · intro sid job_id resume photo now s application prior hr hp hfind hstat hprior
    rw [upload_resume_success sid job_id resume photo now s application hr hp hfind hstat]
    refine ⟨rfl, ?_⟩
    have hafter : (updateFirst (fun a => a.id == application.id)
        (uploadResumeSet (secure_filename (resume.getD ""))
          (secure_filename (photo.getD "")) now) s.applications).find?
          (fun x => x.id == application.id)
        = some (uploadResumeSet (secure_filename (resume.getD ""))
          (secure_filename (photo.getD "")) now prior) := by
      rw [find?_updateFirst_self (fun a => a.id == application.id)
        (uploadResumeSet (secure_filename (resume.getD ""))
          (secure_filename (photo.getD "")) now) s.applications (fun x => rfl), hprior]
      rfl
    exact ⟨_, hafter, rfl, rfl, rfl, rfl⟩

/-- Witness for the amended C6 at a concrete store, through both entry
points. -/
theorem submit_resume_round_trip_witness :
    ((upload 7 "S1" 3 (some "cv.pdf") (some "me.jpg") 10 legacyFeedbackStore).2
        = UploadResult.success
      ∧ ∃ a, (upload 7 "S1" 3 (some "cv.pdf") (some "me.jpg") 10
          legacyFeedbackStore).1.applications.find? (fun x => x.id == 3) = some a ∧
        a.status = "submitted" ∧ a.resume_filename.isSome = true ∧
        a.photo_filename.isSome = true ∧ a.teacher_feedback = some "")
    ∧ ((upload_resume "S1" 1 (some "cv.pdf") (some "me.jpg") 10
          legacyFeedbackStore).2 = UploadResumeResult.success
      ∧ ∃ a, (upload_resume "S1" 1 (some "cv.pdf") (some "me.jpg") 10
          legacyFeedbackStore).1.applications.find?
            (fun x => x.id == legacyApp.id) = some a ∧
        a.status = "submitted" ∧ a.resume_filename.isSome = true ∧
        a.photo_filename.isSome = true ∧
        a.teacher_feedback = legacyApp.teacher_feedback) :=
  ⟨submit_resume_round_trip.1 7 "S1" 3 (some "cv.pdf") (some "me.jpg") 10
      legacyFeedbackStore legacyApp (by decide) (by decide) (Or.inr (by decide))
      (by decide) (by decide) (by decide) (by decide),
    submit_resume_round_trip.2 "S1" 1 (some "cv.pdf") (some "me.jpg") 10
      legacyFeedbackStore legacyApp legacyApp (by decide) (by decide) (by decide)
      (Or.inr (by decide)) (by decide)⟩

/-- C7 (counterexample): the sweep's filter never looks at the status, so
it also rewrites a rejected application that has no stored résumé and an
expired deadline: its status changes from rejected to rejected_auto even
though it was not pending_resume. -/
theorem sweep_rewrites_rejected_application :
    ((expiredRejectedStore.applications.find? (fun a => a.id == 2)).map
      Application.status = some "rejected")
    ∧ some "rejected" ≠ (some "pending_resume" : Option String)
    ∧ (((cleanup_deadlines 100 expiredRejectedStore).applications.find?
        (fun a => a.id == 2)).map Application.status = some "rejected_auto") := by
  decide

/-- C7 (amended): on a store with unique document ids, the sweep rewrites
to rejected_auto exactly the applications with no stored résumé filename
and an expired deadline — regardless of their current status — and leaves
every other application untouched; in particular an application with a
résumé filename, or an unexpired deadline, keeps its status. -/
theorem sweep_changes_only_unfiled_expired (now : Nat) (s : Store)
    (hnd : (s.applications.map Application.id).Nodup) :
    (cleanup_deadlines now s).applications =
      s.applications.map (fun a => if cleanupPred now a then rejectAutoSet a else a) :=
  congrArg Store.applications (cleanup_deadlines_eq_map now s hnd)

/-- Witness for the amended C7 at a concrete store. -/
theorem sweep_changes_only_unfiled_expired_witness :
    (expiredRejectedStore.applications.map Application.id).Nodup
    ∧ (cleanup_deadlines 100 expiredRejectedStore).applications =
      expiredRejectedStore.applications.map
        (fun a => if cleanupPred 100 a then rejectAutoSet a else a) :=
  ⟨by decide, sweep_changes_only_unfiled_expired 100 expiredRejectedStore (by decide)⟩

/-- C8: the specification demands that a non-teacher invoking Assess is
denied with no state change, and the route `assess_students` indeed
refuses non-teachers; but the parallel assessment route
`update_application_status` — mounted under /teacher/ like every other
teacher route — only requires login, so a logged-in student invoking it
does update the application's status.  The code contradicts its own
routing convention, so this is a defect of the code rather than of the
specification. -/
theorem update_application_status_ignores_role :
    (update_application_status true "student" 1 "approved" "" 20 demoStore).2
      = UpdateStatusResult.updated
    ∧ (((update_application_status true "student" 1 "approved" "" 20
        demoStore).1.applications.find? (fun a => a.id == 1)).map Application.status)
      = some "approved"
    ∧ (update_application_status true "student" 1 "approved" "" 20 demoStore).1
      ≠ demoStore
    ∧ assess_students "student" (some 1) "approved" "" demoStore
      = (demoStore, AssessResult.notTeacher) := by
  decide

/-- C9: for a teacher's non-empty bulk clear, every selected application
document is deleted (and no other), the number of deleted applications is
reported, and every job's vacancy count grows by exactly the number of
deleted applications that referenced that job. -/
theorem clear_applications_bookkeeping (app_ids : List Nat) (s : Store)
    (hne : app_ids ≠ []) :
    ((clear_application_bulk "teacher" app_ids s).1.applications
      = s.applications.filter (fun a => !(app_ids.contains a.id)))
    ∧ ((clear_application_bulk "teacher" app_ids s).2
      = ClearResult.cleared
          (s.applications.filter (fun a => app_ids.contains a.id)).length)
    ∧ (∀ (k : Nat) (j : Job), s.jobs.find? (fun x => x.id == k) = some j →
        (clear_application_bulk "teacher" app_ids s).1.jobs.find? (fun x => x.id == k)
          = some { j with vacancies :=
              (j.vacancies + (((s.applications.filter
                (fun a => app_ids.contains a.id)).filter
                  (fun a => a.job_id == k)).length : Int)) }) := by
  have hrole : ¬((!("teacher" == "teacher")) = true) := by decide
  have hempty : ¬(app_ids.isEmpty = true) := by
    cases app_ids with
    | nil => exact absurd rfl hne
    | cons a l => simp [List.isEmpty]
  refine ⟨?_, ?_, ?_⟩
  · unfold clear_application_bulk
    rw [if_neg hrole, if_neg hempty]
  · unfold clear_application_bulk
    rw [if_neg hrole, if_neg hempty]
  · intro k j hj
    unfold clear_application_bulk
    rw [if_neg hrole, if_neg hempty]
    dsimp only
    rw [find?_applyTally _ (nodup_keys_tallyJobs _) _ _ _ hj, tallyJobs_lookup]

/-- Witness for C9: clearing two applications of the same job adds exactly
2 to that job's vacancy count and reports 2 cleared. -/
theorem clear_applications_bookkeeping_witness :
    ([11, 12] : List Nat) ≠ []
    ∧ (((clear_application_bulk "teacher" [11, 12] clearDemoStore).1.applications
        = clearDemoStore.applications.filter (fun a => !([11, 12].contains a.id)))
      ∧ ((clear_application_bulk "teacher" [11, 12] clearDemoStore).2
        = ClearResult.cleared
            (clearDemoStore.applications.filter (fun a => [11, 12].contains a.id)).length)
      ∧ (∀ (k : Nat) (j : Job),
          clearDemoStore.jobs.find? (fun x => x.id == k) = some j →
          (clear_application_bulk "teacher" [11, 12] clearDemoStore).1.jobs.find?
              (fun x => x.id == k)
            = some { j with vacancies :=
                (j.vacancies + (((clearDemoStore.applications.filter
                  (fun a => [11, 12].contains a.id)).filter
                    (fun a => a.job_id == k)).length : Int)) })) :=
  ⟨by decide, clear_applications_bookkeeping [11, 12] clearDemoStore (by decide)⟩

/-- C10: `apply` inserts application documents without a `student_id`
field, while `upload_resume` looks applications up by equality on that
field, which a document lacking the field never satisfies; hence on any
store populated by Apply alone, `upload_resume` (with both files present)
always answers "no matching application" and leaves the store unchanged. -/
theorem upload_resume_never_finds_apply_docs :
    (∀ (role : String) (uid job_id now newId : Nat) (s : Store) (a : Application),
      a ∈ (apply role uid job_id now newId s).1.applications →
      a ∈ s.applications ∨ a.student_id = none)
    ∧ (∀ (sid : String) (a : Application) (job_id : Nat),
        a.student_id = none →
        (a.student_id == some sid && a.job_id == job_id) = false)
    ∧ (∀ (sid : String) (job_id : Nat) (resume photo : Option String) (now : Nat)
        (s : Store),
        (∀ a ∈ s.applications, a.student_id = none) →
        filePresent resume = true → filePresent photo = true →
        upload_resume sid job_id resume photo now s
          = (s, UploadResumeResult.noMatchingApplication)) := by
  refine ⟨?_, ?_, ?_⟩
  · intro role uid job_id now newId s a ha
    rcases apply_store role uid job_id now newId s with heq | ⟨_, heq⟩
    · rw [heq] at ha
      exact Or.inl ha
    · rw [heq] at ha
      rcases List.mem_append.mp ha with hmem | hmem
      · exact Or.inl hmem
      · obtain rfl := List.mem_singleton.mp hmem
        exact Or.inr rfl
  · intro sid a job_id hnone
    rw [hnone]
    rfl
  · intro sid job_id resume photo now s hall hr hp
    have hnone : s.applications.find?
        (fun a => a.student_id == some sid && a.job_id == job_id) = none := by
      refine List.find?_eq_none.mpr ?_
      intro x hx
      rw [show (x.student_id == some sid && x.job_id == job_id) = false from by
        rw [hall x hx]; rfl]
      decide
    unfold upload_resume
    rw [if_neg (by rw [hr, hp]; decide), hnone]

/-- Witness for C10 at a concrete store populated by Apply. -/
theorem upload_resume_never_finds_witness :
    (∀ a ∈ demoStore.applications, a.student_id = none)
    ∧ upload_resume "S1" 1 (some "cv.pdf") (some "me.jpg") 10 demoStore
      = (demoStore, UploadResumeResult.noMatchingApplication) :=
  ⟨by decide, upload_resume_never_finds_apply_docs.2.2 "S1" 1 (some "cv.pdf")
    (some "me.jpg") 10 demoStore (by decide) (by decide) (by decide)⟩

end Portal
